import Mathlib

/-!
Verification of the camera-test plate capture/recognition pipeline.

The definitions below are shallow embeddings of the TypeScript source:
`src/unnamed/part_000` (the `ModernCameraApp` component) and `src/src/App.tsx`
(the `IndianPlateScanner` component and a second embedded `ModernCameraApp`).
Strings are `String`/`List Char`; the anchored regular expressions of the
source, which are concatenations of counted character classes, are embedded
by an explicit greedy backtracking matcher over group patterns; JavaScript
`replace` chains become maps and filters over the character list.  The `\s`
class is modelled by `Char.isWhitespace` (space, tab, CR, LF) and
`toUpperCase` by the ASCII `Char.toUpper`; the sources only ever feed the
formatters OCR output restricted to `A-Z0-9` and blanks, where the two agree
with JavaScript.
-/

/-- Characters matched by the regex class `[A-Z]`. -/
def isUpperAZ (c : Char) : Bool := decide ('A' ≤ c) && decide (c ≤ 'Z')

/-- Characters matched by the regex class `[0-9]`, i.e. `\d`. -/
def isDigit09 (c : Char) : Bool := decide ('0' ≤ c) && decide (c ≤ '9')

/-- Characters matched by the regex class `[A-Z0-9]`. -/
def isPlateChar (c : Char) : Bool := isUpperAZ c || isDigit09 c

/-- The confusion substitution `.replace(/O/g, '0')` of the source, per character. -/
def substO (c : Char) : Char := if c = 'O' then '0' else c

/-- The confusion substitution `.replace(/I/g, '1')` of the source, per character. -/
def substI (c : Char) : Char := if c = 'I' then '1' else c

/-- The confusion substitution `.replace(/Z/g, '2')` of the source, per character. -/
def substZ (c : Char) : Char := if c = 'Z' then '2' else c

/-- The confusion substitution `.replace(/S/g, '5')` of the source, per character. -/
def substS (c : Char) : Char := if c = 'S' then '5' else c

/-- The cleaning chain shared by `validateIndianPlate` in `part_000` and in
`App.tsx` (second component):
`rawText.replace(/\s+/g, '').toUpperCase().replace(/[^A-Z0-9]/g, '')
  .replace(/O/g, '0').replace(/I/g, '1').replace(/Z/g, '2').replace(/S/g, '5')`. -/
def normalizeStrict (s : String) : String :=
  let l := s.data.filter (fun c => !c.isWhitespace)
  let l := l.map Char.toUpper
  let l := l.filter isPlateChar
  let l := l.map substO
  let l := l.map substI
  let l := l.map substZ
  let l := l.map substS
  String.mk l

/-- `replace(/\s+/g, ' ')`: each maximal run of whitespace becomes one space. -/
def collapseWs : List Char → List Char
  | [] => []
  | [c] => if c.isWhitespace then [' '] else [c]
  | a :: b :: t =>
    if a.isWhitespace && b.isWhitespace then collapseWs (b :: t)
    else (if a.isWhitespace then ' ' else a) :: collapseWs (b :: t)

/-- Left half of `String.prototype.trim`: drop leading whitespace. -/
def trimLeftWs (l : List Char) : List Char := l.dropWhile Char.isWhitespace

/-- Right half of `String.prototype.trim`: drop trailing whitespace. -/
def trimRightWs : List Char → List Char
  | [] => []
  | c :: t =>
    let r := trimRightWs t
    if r.isEmpty && c.isWhitespace then [] else c :: r

/-- The whitespace-preserving cleaning chain of `formatIndianPlate` and
`processImage` in `App.tsx`:
`text.toUpperCase().replace(/[^A-Z0-9\s]/g, '').replace(/\s+/g, ' ')
  .replace(/O/g, '0').replace(/I/g, '1').trim()`. -/
def normalizeSpaced (s : String) : String :=
  let l := s.data.map Char.toUpper
  let l := l.filter (fun c => isPlateChar c || c.isWhitespace)
  let l := collapseWs l
  let l := l.map substO
  let l := l.map substI
  String.mk (trimRightWs (trimLeftWs l))

/-- One atom of an anchored regular expression: a character class with a
repetition range `{lo,hi}`, and whether the atom is a capturing group. -/
structure GroupPat where
  pred : Char → Bool
  lo : Nat
  hi : Nat
  cap : Bool

/-- Take exactly `k` characters all satisfying `p`, returning them and the rest. -/
def takeIf (p : Char → Bool) (k : Nat) (l : List Char) : Option (List Char × List Char) :=
  let seg := l.take k
  if seg.length = k && seg.all p then some (seg, l.drop k) else none

/-- Greedy matching of one counted class against a prefix of `l`: repetition
counts are tried from `k` downward (longest first, as a backtracking regex
engine does), and for each count the continuation `cont` must accept the
remaining input.  Captured segments of capturing atoms are accumulated. -/
def tryGroup (p : Char → Bool) (lo : Nat) (capFlag : Bool) (l : List Char)
    (cont : List Char → Option (List (List Char))) : Nat → Option (List (List Char))
  | 0 =>
    if lo = 0 then
      (cont l).map (fun segs => if capFlag then [] :: segs else segs)
    else none
  | k + 1 =>
    let attempt :=
      if lo ≤ k + 1 then
        match takeIf p (k + 1) l with
        | some (seg, rest) =>
          (cont rest).map (fun segs => if capFlag then seg :: segs else segs)
        | none => none
      else none
    match attempt with
    | some r => some r
    | none => tryGroup p lo capFlag l cont k

/-- Anchored match of a concatenation of counted classes against the whole of
`l`, returning the captured segments in order on success. -/
def matchFrom : List GroupPat → List Char → Option (List (List Char))
  | [], l => if l.isEmpty then some [] else none
  | g :: gs, l => tryGroup g.pred g.lo g.cap l (fun r => matchFrom gs r) g.hi

/-- A capturing `([A-Z]{lo,hi})` atom. -/
def gU (lo hi : Nat) : GroupPat := ⟨isUpperAZ, lo, hi, true⟩

/-- A capturing `(\d{lo,hi})` atom. -/
def gD (lo hi : Nat) : GroupPat := ⟨isDigit09, lo, hi, true⟩

/-- A non-capturing `[A-Z]{lo,hi}` atom. -/
def uU (lo hi : Nat) : GroupPat := ⟨isUpperAZ, lo, hi, false⟩

/-- A non-capturing `\d{lo,hi}` atom. -/
def uD (lo hi : Nat) : GroupPat := ⟨isDigit09, lo, hi, false⟩

/-- A literal character atom, as in the `IND` prefixes of the source patterns. -/
def gLit (c : Char) : GroupPat := ⟨fun x => decide (x = c), 1, 1, false⟩

/-- An optional literal character atom (`D?`). -/
def gLitOpt (c : Char) : GroupPat := ⟨fun x => decide (x = c), 0, 1, false⟩

/-- A non-capturing `\s?` atom. -/
def gWsOpt : GroupPat := ⟨Char.isWhitespace, 0, 1, false⟩

/-- The ordered pattern list of `validateIndianPlate` in `part_000`:
`/^[A-Z]{2}\d{2}[A-Z]{1,2}\d{4}$/`, `/^[A-Z]{2}\d{2}\d{4}$/`,
`/^[A-Z]{3}\d{4}$/`. -/
def platePatterns : List (List GroupPat) :=
  [ [uU 2 2, uD 2 2, uU 1 2, uD 4 4],
    [uU 2 2, uD 2 2, uD 4 4],
    [uU 3 3, uD 4 4] ]

/-- `validateIndianPlate` from `part_000` (lines 185-224): clean the OCR text,
test it against the ordered pattern list, and on a first match reformat it by
fixed substring positions (`state`, `district`, `series`, `number`).
`null` is `none`. -/
def validateIndianPlate (rawText : String) : Option String :=
  let cleaned := normalizeStrict rawText
  let l := cleaned.data
  let n := l.length
  if platePatterns.any (fun p => (matchFrom p l).isSome) then
    if 8 ≤ n then
      some (String.mk (l.take 2) ++ " " ++ String.mk ((l.drop 2).take 2) ++ " " ++
            String.mk ((l.drop 4).take (n - 8)) ++ " " ++ String.mk (l.drop (n - 4)))
    else if n = 7 then
      some (String.mk (l.take 2) ++ " " ++ String.mk (l.drop 2))
    else some cleaned
  else none

/-- The ordered capture patterns of `formatIndianPlate` in `App.tsx`
(lines 175-181), in source order. -/
def formatPatterns : List (List GroupPat) :=
  [ [gU 2 2, gD 2 2, gU 1 2, gD 4 4],
    [gU 2 2, gD 1 2, gU 1 3, gD 3 4],
    [gU 2 2, gD 2 2, gU 2 4],
    [gU 2 2, gD 1 2, gU 1 1, gD 3 3],
    [gLit 'I', gLit 'N', gLit 'D', gU 2 2, gD 2 2, gU 2 2, gD 4 4] ]

/-- First-match-wins evaluation: the first pattern that matches yields
`match.slice(1).join(' ')`, the captured segments joined by single spaces. -/
def firstPatternJoin : List (List GroupPat) → List Char → Option String
  | [], _ => none
  | p :: ps, l =>
    match matchFrom p l with
    | some segs => some (String.intercalate " " (segs.map String.mk))
    | none => firstPatternJoin ps l

/-- `formatIndianPlate` from `App.tsx` (lines 164-191): normalize keeping
spaces, then strip the spaces (`compact`), then try the ordered capture
patterns; on a match the captured groups are joined with single spaces. -/
def formatIndianPlate (text : String) : Option String :=
  let cleaned := normalizeSpaced text
  let compact := cleaned.data.filter (fun c => !c.isWhitespace)
  firstPatternJoin formatPatterns compact

/-- The ordered boolean patterns of `validateIndianPlate` in `App.tsx`
(lines 611-618), in source order.  The `\s?` atoms are kept although the
cleaned input can no longer contain whitespace. -/
def validatePatternsApp : List (List GroupPat) :=
  [ [uU 2 2, gWsOpt, uD 1 2, gWsOpt, uU 1 2, gWsOpt, uD 4 4],
    [gLit 'I', gLit 'N', gLit 'D', gWsOpt, uU 2 2, gWsOpt, uD 1 2, gWsOpt,
      uU 1 2, gWsOpt, uD 4 4],
    [gLit 'I', gLit 'N', gLitOpt 'D', uU 2 2, uD 2 2, uD 4 6],
    [uU 2 2, uD 2 2, uD 4 6],
    [gLit 'I', gLit 'N', gLit 'D', gWsOpt, uU 2 2, gWsOpt, uD 2 2, gWsOpt, uD 4 6],
    [uU 2 2, uD 2 2, uD 4 6] ]

/-- One step of the global scan
`cleaned.match(/[A-Z]{2}|\d{1,2}|[A-Z]{1,2}|\d{4,6}/g)`: at the current
position the alternatives are tried in source order, each greedily.  Since
every alternative that can start here is decided by the first two characters,
this reduces to: two letters, else one letter, else two digits, else one
digit. -/
def altMatch : List Char → Option (List Char × List Char)
  | [] => none
  | a :: t =>
    if isUpperAZ a then
      match t with
      | b :: r => if isUpperAZ b then some ([a, b], r) else some ([a], t)
      | [] => some ([a], [])
    else if isDigit09 a then
      match t with
      | b :: r => if isDigit09 b then some ([a, b], r) else some ([a], t)
      | [] => some ([a], [])
    else none

/-- The global scan itself: find the leftmost match, record it, continue at
its end; on failure advance one character.  Fuelled by the input length,
which suffices because every step consumes at least one character. -/
def scanPartsGo : Nat → List Char → List (List Char)
  | 0, _ => []
  | _ + 1, [] => []
  | n + 1, a :: t =>
    match altMatch (a :: t) with
    | some (seg, rest) => seg :: scanPartsGo n rest
    | none => scanPartsGo n t

/-- `cleaned.match(/[A-Z]{2}|\d{1,2}|[A-Z]{1,2}|\d{4,6}/g)` as a total list. -/
def scanParts (l : List Char) : List (List Char) := scanPartsGo l.length l

/-- `validateIndianPlate` from `App.tsx` (lines 609-641): clean strictly,
test the ordered regex list, and on any match re-segment the cleaned text by
the global scan and join with single spaces (`parts ? parts.join(' ') : null`). -/
def validateIndianPlateApp (rawText : String) : Option String :=
  let cleaned := normalizeStrict rawText
  let l := cleaned.data
  if validatePatternsApp.any (fun p => (matchFrom p l).isSome) then
    let parts := scanParts l
    if parts.isEmpty then none
    else some (String.intercalate " " (parts.map String.mk))
  else none

/-- Outcome of a scan as surfaced by the source components: either an
extracted text or the error message put into the `error` state. -/
inductive ScanOutcome where
  | ok (text : String)
  | err (msg : String)
deriving DecidableEq

/-- `String.prototype.trim`, over the character list (drop whitespace at both
ends). -/
def jsTrim (s : String) : String := String.mk (trimRightWs (trimLeftWs s.data))

/-- The result computation of `scanNumberPlate` in `part_000` (lines 315-351),
as a function of the raw OCR text of the selected photo: empty text is the
`No text detected` error, otherwise
`validateIndianPlate(extractedRawText) || extractedRawText.trim()` (the
formatter result when it matches; the raw trimmed text as fallback —
`validateIndianPlate` never returns the empty string, so `||` is `getD`). -/
def scanNumberPlateResult (extractedRawText : String) : ScanOutcome :=
  if jsTrim extractedRawText = "" then
    ScanOutcome.err ("No text detected. Please ensure the number plate is clearly visible and try again.")
  else
    ScanOutcome.ok ((validateIndianPlate extractedRawText).getD (jsTrim extractedRawText))

/-- The result computation of `processImage` in `App.tsx` (lines 193-235), as
a function of the raw OCR text: the text is normalized (same chain as in
`formatIndianPlate`), then `formatIndianPlate` is applied; a match becomes
the extracted text, no match becomes the error
`Could not extract valid plate number. Try again.` and nothing is kept. -/
def processImageOutcome (ocrText : String) : ScanOutcome :=
  let text := normalizeSpaced ocrText
  match formatIndianPlate text with
  | some t => ScanOutcome.ok t
  | none => ScanOutcome.err ("Could not extract valid plate number. Try again.")

/-- A captured photo record (`CapturedPhoto` in the source): id is
`Date.now().toString()`, the payload is the canvas JPEG data URL, the
timestamp the capture time, and the extracted text is absent until a scan. -/
structure Photo where
  id : String
  dataUrl : String
  timestamp : Nat
  extractedText : Option String
deriving DecidableEq

/-- The session state of `ModernCameraApp` (`part_000`): the React state
variables that the capture/delete operations read or write. -/
structure AppState where
  isStreaming : Bool
  error : String
  capturedPhotos : List Photo
  isCapturing : Bool
  showGallery : Bool
  selectedPhotoIndex : Nat
  showFullscreen : Bool
  isScanning : Bool
  extractedText : String
  showScanResult : Bool
deriving DecidableEq

/-- The environment a `capturePhoto` call sees: whether the video and canvas
refs are bound, whether a 2d context is available, the frame the canvas
encodes, and the current `Date.now()` value. -/
structure CaptureCtx where
  hasVideo : Bool
  hasCanvas : Bool
  hasCtx : Bool
  frameDataUrl : String
  now : Nat
deriving DecidableEq

/-- How a `capturePhoto` call ends.  The source rejects by an early `return`
with no state write and no photo; following the spec's error taxonomy, that
synchronous rejection is the `CaptureUnavailable` outcome. -/
inductive CaptureOutcome where
  | ok
  | captureUnavailable
deriving DecidableEq

/-- `capturePhoto` from `part_000` (lines 128-159): guard on the refs and
`isStreaming` (early return → `captureUnavailable`, nothing changes); a
missing 2d context returns after `setIsCapturing(true)`; otherwise a Photo
with id `Date.now().toString()` is prepended to `capturedPhotos`.
The `setTimeout` that later clears `isCapturing` is outside this step. -/
def capturePhoto (ctx : CaptureCtx) (s : AppState) : AppState × CaptureOutcome :=
  if !ctx.hasVideo || !ctx.hasCanvas || !s.isStreaming then
    (s, CaptureOutcome.captureUnavailable)
  else if !ctx.hasCtx then
    ({ s with isCapturing := true }, CaptureOutcome.captureUnavailable)
  else
    let photo : Photo :=
      { id := toString ctx.now, dataUrl := ctx.frameDataUrl,
        timestamp := ctx.now, extractedText := none }
    ({ s with isCapturing := true, capturedPhotos := photo :: s.capturedPhotos },
      CaptureOutcome.ok)

/-- `deletePhoto` from `part_000` (lines 365-378): drop every photo whose id
equals `photoId`; if the selected index now falls outside a non-empty list it
is clamped to the last index; if the list became empty the gallery,
fullscreen and scan-result views are closed (the numeric index itself is
left as it was). -/
def deletePhoto (photoId : String) (s : AppState) : AppState :=
  let newPhotos := s.capturedPhotos.filter (fun p => !decide (p.id = photoId))
  if newPhotos.length ≤ s.selectedPhotoIndex ∧ 0 < newPhotos.length then
    { s with capturedPhotos := newPhotos, selectedPhotoIndex := newPhotos.length - 1 }
  else if newPhotos.length = 0 then
    { s with
      capturedPhotos := newPhotos
      showGallery := false
      showFullscreen := false
      showScanResult := false }
  else
    { s with capturedPhotos := newPhotos }

/-- One RGBA pixel of an `ImageData` buffer (channel values 0-255). -/
structure Pixel where
  r : Nat
  g : Nat
  b : Nat
  a : Nat
deriving DecidableEq

/-- The per-pixel body of the preprocessing loop: perceptual grayscale
`Math.round(0.299 r + 0.587 g + 0.114 b)` (computed exactly over rationals,
rounding half up) followed by hard thresholding at `cutoff` to 0 or 255;
alpha is untouched. -/
def enhancePixel (cutoff : Nat) (p : Pixel) : Pixel :=
  let gray := (299 * p.r + 587 * p.g + 114 * p.b + 500) / 1000
  let e := if cutoff < gray then 255 else 0
  ⟨e, e, e, p.a⟩

/-- `preprocessImageForOCR` from `part_000` (lines 227-246): it reads the
canvas pixels with `getImageData`, rewrites each to the thresholded
grayscale (cutoff 120), and writes the result back onto the same canvas with
`putImageData`, returning `void`.  The value of this definition is therefore
the content of the input canvas after the call. -/
def preprocessImageForOCR (canvas : List Pixel) : List Pixel :=
  canvas.map (enhancePixel 120)

/-- A character the strict cleaning chain can emit: alphanumeric and not one
of the substituted letters `O`, `I`, `Z`, `S`. -/
def strictGood (c : Char) : Bool :=
  isPlateChar c && !decide (c = 'O') && !decide (c = 'I') &&
    !decide (c = 'Z') && !decide (c = 'S')

/-- A character the whitespace-preserving cleaning chain can emit:
alphanumeric and not `O` or `I`, or the single space. -/
def wsGood (c : Char) : Bool :=
  (isPlateChar c && !decide (c = 'O') && !decide (c = 'I')) || decide (c = ' ')

theorem plateChar_toNat {c : Char} (h : isPlateChar c = true) :
    (65 ≤ c.toNat ∧ c.toNat ≤ 90) ∨ (48 ≤ c.toNat ∧ c.toNat ≤ 57) := by
  unfold isPlateChar isUpperAZ isDigit09 at h
  simp only [Bool.or_eq_true, Bool.and_eq_true, decide_eq_true_eq] at h
  rcases h with ⟨h1, h2⟩ | ⟨h1, h2⟩
  · exact Or.inl ⟨h1, h2⟩
  · exact Or.inr ⟨h1, h2⟩

theorem toUpper_fix {c : Char} (h : c.toNat < 97) : c.toUpper = c := by
  unfold Char.toUpper
  rw [if_neg]
  omega

theorem plateChar_toUpper {c : Char} (h : isPlateChar c = true) : c.toUpper = c := by
  rcases plateChar_toNat h with ⟨_, h2⟩ | ⟨_, h2⟩ <;> exact toUpper_fix (by omega)

theorem plateChar_not_ws {c : Char} (h : isPlateChar c = true) :
    c.isWhitespace = false := by
  unfold Char.isWhitespace
  simp only [Bool.or_eq_false_iff, decide_eq_false_iff_not]
  refine ⟨⟨⟨?_, ?_⟩, ?_⟩, ?_⟩ <;> rintro rfl <;> exact absurd h (by decide)

theorem substO_ne {c : Char} (h : ¬ c = 'O') : substO c = c := if_neg h

theorem substI_ne {c : Char} (h : ¬ c = 'I') : substI c = c := if_neg h

theorem substZ_ne {c : Char} (h : ¬ c = 'Z') : substZ c = c := if_neg h

theorem substS_ne {c : Char} (h : ¬ c = 'S') : substS c = c := if_neg h

theorem strictGood_of_plate {c : Char} (h : isPlateChar c = true) :
    strictGood (substS (substZ (substI (substO c)))) = true := by
  by_cases hO : c = 'O'
  · subst hO; decide
  by_cases hI : c = 'I'
  · subst hI; decide
  by_cases hZ : c = 'Z'
  · subst hZ; decide
  by_cases hS : c = 'S'
  · subst hS; decide
  rw [substO_ne hO, substI_ne hI, substZ_ne hZ, substS_ne hS]
  unfold strictGood
  simp [h, hO, hI, hZ, hS]

theorem map_fix {α : Type} {f : α → α} {l : List α} (h : ∀ c ∈ l, f c = c) :
    l.map f = l := by
  induction l with
  | nil => rfl
  | cons a t ih =>
    simp only [List.map_cons, h a (List.mem_cons_self a t)]
    rw [ih (fun c hc => h c (List.mem_cons_of_mem a hc))]

theorem mk_data (u : String) : String.mk u.data = u := rfl

theorem strictGood_mem (s : String) :
    ∀ c ∈ (normalizeStrict s).data, strictGood c = true := by
  intro c hc
  unfold normalizeStrict at hc
  simp only [List.mem_map, List.mem_filter] at hc
  obtain ⟨c3, ⟨c2, ⟨c1, ⟨c0, ⟨_, hp⟩, rfl⟩, rfl⟩, rfl⟩, rfl⟩ := hc
  exact strictGood_of_plate hp

theorem strictGood_plate {c : Char} (h : strictGood c = true) : isPlateChar c = true := by
  unfold strictGood at h
  simp only [Bool.and_eq_true] at h
  exact h.1.1.1.1

theorem normalizeStrict_fix (u : String) (h : ∀ c ∈ u.data, strictGood c = true) :
    normalizeStrict u = u := by
  have hs : ∀ c ∈ u.data, strictGood c = true := h
  have hgood : ∀ c ∈ u.data,
      ¬ c = 'O' ∧ ¬ c = 'I' ∧ ¬ c = 'Z' ∧ ¬ c = 'S' := by
    intro c hc
    have := hs c hc
    unfold strictGood at this
    simp only [Bool.and_eq_true, Bool.not_eq_true', decide_eq_false_iff_not] at this
    exact ⟨this.1.1.1.2, this.1.1.2, this.1.2, this.2⟩
  have e1 : u.data.filter (fun c => !c.isWhitespace) = u.data :=
    List.filter_eq_self.mpr
      (fun c hc => by rw [plateChar_not_ws (strictGood_plate (hs c hc))]; rfl)
  have e2 : u.data.map Char.toUpper = u.data :=
    map_fix (fun c hc => plateChar_toUpper (strictGood_plate (hs c hc)))
  have e3 : u.data.filter isPlateChar = u.data :=
    List.filter_eq_self.mpr (fun c hc => strictGood_plate (hs c hc))
  have e4 : u.data.map substO = u.data :=
    map_fix (fun c hc => substO_ne (hgood c hc).1)
  have e5 : u.data.map substI = u.data :=
    map_fix (fun c hc => substI_ne (hgood c hc).2.1)
  have e6 : u.data.map substZ = u.data :=
    map_fix (fun c hc => substZ_ne (hgood c hc).2.2.1)
  have e7 : u.data.map substS = u.data :=
    map_fix (fun c hc => substS_ne (hgood c hc).2.2.2)
  unfold normalizeStrict
  dsimp only
  rw [e1, e2, e3, e4, e5, e6, e7]

theorem normalizeStrict_idem (s : String) :
    normalizeStrict (normalizeStrict s) = normalizeStrict s :=
  normalizeStrict_fix (normalizeStrict s) (strictGood_mem s)

theorem wsGood_cases {c : Char} (h : wsGood c = true) :
    (isPlateChar c = true ∧ ¬ c = 'O' ∧ ¬ c = 'I') ∨ c = ' ' := by
  unfold wsGood at h
  simp only [Bool.or_eq_true, Bool.and_eq_true, Bool.not_eq_true',
    decide_eq_false_iff_not, decide_eq_true_eq] at h
  rcases h with ⟨⟨hp, hO⟩, hI⟩ | h
  · exact Or.inl ⟨hp, hO, hI⟩
  · exact Or.inr h

theorem wsGood_toUpper {c : Char} (h : wsGood c = true) : c.toUpper = c := by
  rcases wsGood_cases h with ⟨hp, _, _⟩ | rfl
  · exact plateChar_toUpper hp
  · decide

theorem wsGood_keep {c : Char} (h : wsGood c = true) :
    (isPlateChar c || c.isWhitespace) = true := by
  rcases wsGood_cases h with ⟨hp, _, _⟩ | rfl
  · simp [hp]
  · decide

theorem wsGood_substO {c : Char} (h : wsGood c = true) : substO c = c := by
  rcases wsGood_cases h with ⟨_, hO, _⟩ | rfl
  · exact substO_ne hO
  · decide

theorem wsGood_substI {c : Char} (h : wsGood c = true) : substI c = c := by
  rcases wsGood_cases h with ⟨_, _, hI⟩ | rfl
  · exact substI_ne hI
  · decide

theorem wsGood_space {c : Char} (h : wsGood c = true)
    (hw : c.isWhitespace = true) : c = ' ' := by
  rcases wsGood_cases h with ⟨hp, _, _⟩ | rfl
  · rw [plateChar_not_ws hp] at hw; exact absurd hw (by decide)
  · rfl

theorem substO_ws (c : Char) : (substO c).isWhitespace = c.isWhitespace := by
  by_cases h : c = 'O'
  · subst h; decide
  · rw [substO_ne h]

theorem substI_ws (c : Char) : (substI c).isWhitespace = c.isWhitespace := by
  by_cases h : c = 'I'
  · subst h; decide
  · rw [substI_ne h]

theorem wsGood_of_keep {c : Char} (h : (isPlateChar c || decide (c = ' ')) = true) :
    wsGood (substI (substO c)) = true := by
  simp only [Bool.or_eq_true, decide_eq_true_eq] at h
  rcases h with hp | rfl
  · by_cases hO : c = 'O'
    · subst hO; decide
    rw [substO_ne hO]
    by_cases hI : c = 'I'
    · subst hI; decide
    rw [substI_ne hI]
    unfold wsGood
    simp [hp, hO, hI]
  · decide

theorem collapse_mem {l : List Char}
    (h : ∀ c ∈ l, (isPlateChar c || c.isWhitespace) = true) :
    ∀ c ∈ collapseWs l, (isPlateChar c || decide (c = ' ')) = true := by
  induction l with
  | nil => intro c hc; simp [collapseWs] at hc
  | cons a t ih =>
    cases t with
    | nil =>
      intro c hc
      by_cases hw : a.isWhitespace = true
      · simp only [collapseWs, hw, if_pos] at hc
        simp only [List.mem_singleton] at hc
        subst hc; decide
      · simp only [collapseWs, hw, if_neg] at hc
        simp only [Bool.not_eq_true] at hw
        simp only [hw, Bool.false_eq_true, if_false, List.mem_singleton] at hc
        subst hc
        have hp := h c (List.mem_cons_self c [])
        rw [hw] at hp
        simp only [Bool.or_false] at hp
        simp [hp]
    | cons b t2 =>
      intro c hc
      have htail : ∀ d ∈ b :: t2, (isPlateChar d || d.isWhitespace) = true :=
        fun d hd => h d (List.mem_cons_of_mem a hd)
      by_cases hab : (a.isWhitespace && b.isWhitespace) = true
      · rw [show collapseWs (a :: b :: t2) = collapseWs (b :: t2) by
          rw [collapseWs]; rw [if_pos hab]] at hc
        exact ih htail c hc
      · rw [show collapseWs (a :: b :: t2)
              = (if a.isWhitespace then ' ' else a) :: collapseWs (b :: t2) by
          rw [collapseWs]; rw [if_neg (by simpa using hab)]] at hc
        rcases List.mem_cons.mp hc with rfl | hc2
        · by_cases hw : a.isWhitespace = true
          · simp only [hw, if_true]; decide
          · simp only [Bool.not_eq_true] at hw
            simp only [hw, Bool.false_eq_true, if_false]
            have hp := h a (List.mem_cons_self a (b :: t2))
            rw [hw] at hp
            simp only [Bool.or_false] at hp
            simp [hp]
        · exact ih htail c hc2

theorem collapse_head (b : Char) (t : List Char) :
    ∃ y r, collapseWs (b :: t) = y :: r ∧
      (y.isWhitespace = true → b.isWhitespace = true) := by
  induction t generalizing b with
  | nil =>
    by_cases hw : b.isWhitespace = true
    · exact ⟨' ', [], by simp [collapseWs, hw], fun _ => hw⟩
    · refine ⟨b, [], ?_, fun h => h⟩
      simp only [Bool.not_eq_true] at hw
      simp [collapseWs, hw]
  | cons d t2 ih =>
    by_cases hbd : (b.isWhitespace && d.isWhitespace) = true
    · obtain ⟨y, r, hyr, hws⟩ := ih d
      refine ⟨y, r, ?_, fun _ => (Bool.and_eq_true _ _).mp hbd |>.1⟩
      rw [collapseWs, if_pos hbd, hyr]
    · refine ⟨(if b.isWhitespace then ' ' else b), collapseWs (d :: t2), ?_, ?_⟩
      · rw [collapseWs, if_neg (by simpa using hbd)]
      · intro hy
        by_cases hw : b.isWhitespace = true
        · exact hw
        · simp only [Bool.not_eq_true] at hw
          rw [hw] at hy
          simp only [Bool.false_eq_true, if_false] at hy
          rw [hw] at hy
          exact absurd hy (by simp)

/-- No two adjacent whitespace characters. -/
def noWsPair : List Char → Bool
  | [] => true
  | [_] => true
  | a :: b :: t => !(a.isWhitespace && b.isWhitespace) && noWsPair (b :: t)

theorem noWsPair_tail {a : Char} {t : List Char} (h : noWsPair (a :: t) = true) :
    noWsPair t = true := by
  cases t with
  | nil => rfl
  | cons b t2 =>
    rw [noWsPair] at h
    exact ((Bool.and_eq_true _ _).mp h).2

theorem collapse_noWsPair (l : List Char) : noWsPair (collapseWs l) = true := by
  induction l with
  | nil => rfl
  | cons a t ih =>
    cases t with
    | nil =>
      by_cases hw : a.isWhitespace = true
      · simp [collapseWs, hw, noWsPair]
      · simp only [Bool.not_eq_true] at hw
        simp [collapseWs, hw, noWsPair]
    | cons b t2 =>
      by_cases hab : (a.isWhitespace && b.isWhitespace) = true
      · rw [collapseWs, if_pos hab]
        exact ih
      · rw [collapseWs, if_neg (by simpa using hab)]
        obtain ⟨y, r, hyr, hws⟩ := collapse_head b t2
        rw [hyr]
        rw [hyr] at ih
        rw [noWsPair]
        refine (Bool.and_eq_true _ _).mpr ⟨?_, ih⟩
        simp only [Bool.not_eq_eq_eq_not, Bool.not_true, Bool.and_eq_false_iff]
        by_cases hx : (if a.isWhitespace then ' ' else a).isWhitespace = true
        · right
          by_contra hy
          rw [Bool.not_eq_false] at hy
          have hb := hws hy
          have ha : a.isWhitespace = true := by
            by_cases haw : a.isWhitespace = true
            · exact haw
            · simp only [Bool.not_eq_true] at haw
              rw [haw] at hx
              simp [haw] at hx
          exact absurd ((Bool.and_eq_true _ _).mpr ⟨ha, hb⟩) hab
        · left
          simpa using hx

theorem map_noWsPair {f : Char → Char}
    (hf : ∀ c, (f c).isWhitespace = c.isWhitespace) {l : List Char}
    (h : noWsPair l = true) : noWsPair (l.map f) = true := by
  induction l with
  | nil => rfl
  | cons a t ih =>
    cases t with
    | nil => rfl
    | cons b t2 =>
      rw [noWsPair] at h
      obtain ⟨h1, h2⟩ := (Bool.and_eq_true _ _).mp h
      simp only [List.map_cons]
      rw [noWsPair]
      refine (Bool.and_eq_true _ _).mpr ⟨?_, ?_⟩
      · rw [hf a, hf b]
        exact h1
      · exact ih h2

theorem dropWhile_noWsPair {p : Char → Bool} {l : List Char}
    (h : noWsPair l = true) : noWsPair (l.dropWhile p) = true := by
  induction l with
  | nil => rfl
  | cons a t ih =>
    rw [List.dropWhile_cons]
    by_cases hp : p a = true
    · rw [if_pos hp]
      exact ih (noWsPair_tail h)
    · rw [if_neg hp]
      exact h

theorem trimRightWs_isPre (l : List Char) : ∃ t2, trimRightWs l ++ t2 = l := by
  induction l with
  | nil => exact ⟨[], rfl⟩
  | cons c t ih =>
    rw [trimRightWs]
    by_cases hc : ((trimRightWs t).isEmpty && c.isWhitespace) = true
    · rw [if_pos hc]
      exact ⟨c :: t, rfl⟩
    · rw [if_neg hc]
      obtain ⟨t2, ht⟩ := ih
      exact ⟨t2, by rw [List.cons_append, ht]⟩

theorem noWsPair_append_left {l1 l2 : List Char}
    (h : noWsPair (l1 ++ l2) = true) : noWsPair l1 = true := by
  induction l1 with
  | nil => rfl
  | cons a t ih =>
    cases t with
    | nil => rfl
    | cons b t2 =>
      rw [List.cons_append, List.cons_append] at h
      rw [noWsPair] at h
      obtain ⟨h1, h2⟩ := (Bool.and_eq_true _ _).mp h
      rw [noWsPair]
      refine (Bool.and_eq_true _ _).mpr ⟨h1, ?_⟩
      exact ih h2

theorem trimRight_noWsPair {l : List Char} (h : noWsPair l = true) :
    noWsPair (trimRightWs l) = true := by
  obtain ⟨t2, ht⟩ := trimRightWs_isPre l
  exact noWsPair_append_left (ht ▸ h)

theorem dropWhile_head_false {p : Char → Bool} {l : List Char} {c : Char}
    {r : List Char} (h : l.dropWhile p = c :: r) : p c = false := by
  induction l with
  | nil => simp at h
  | cons a t ih =>
    rw [List.dropWhile_cons] at h
    by_cases hp : p a = true
    · rw [if_pos hp] at h
      exact ih h
    · rw [if_neg hp] at h
      cases h
      exact Bool.not_eq_true _ ▸ hp

theorem trimRight_head (c : Char) (t : List Char) :
    trimRightWs (c :: t) = [] ∨ ∃ r, trimRightWs (c :: t) = c :: r := by
  rw [trimRightWs]
  by_cases hc : ((trimRightWs t).isEmpty && c.isWhitespace) = true
  · rw [if_pos hc]
    exact Or.inl rfl
  · rw [if_neg hc]
    exact Or.inr ⟨trimRightWs t, rfl⟩

theorem trimRight_idem (l : List Char) :
    trimRightWs (trimRightWs l) = trimRightWs l := by
  induction l with
  | nil => rfl
  | cons c t ih =>
    rw [trimRightWs]
    by_cases hc : ((trimRightWs t).isEmpty && c.isWhitespace) = true
    · rw [if_pos hc]
      rfl
    · rw [if_neg hc]
      rw [trimRightWs, ih, if_neg hc]

theorem dropWhile_idem (p : Char → Bool) (l : List Char) :
    (l.dropWhile p).dropWhile p = l.dropWhile p := by
  cases h : l.dropWhile p with
  | nil => rfl
  | cons c r =>
    rw [List.dropWhile_cons, if_neg]
    rw [dropWhile_head_false h]
    simp

theorem trimRight_mem {l : List Char} : ∀ c ∈ trimRightWs l, c ∈ l := by
  induction l with
  | nil => intro c hc; simp [trimRightWs] at hc
  | cons a t ih =>
    intro c hc
    rw [trimRightWs] at hc
    by_cases ha : ((trimRightWs t).isEmpty && a.isWhitespace) = true
    · rw [if_pos ha] at hc
      simp at hc
    · rw [if_neg ha] at hc
      rcases List.mem_cons.mp hc with rfl | hc2
      · exact List.mem_cons_self c t
      · exact List.mem_cons_of_mem a (ih c hc2)

theorem dropWhile_mem {p : Char → Bool} {l : List Char} :
    ∀ c ∈ l.dropWhile p, c ∈ l := by
  induction l with
  | nil => intro c hc; simp at hc
  | cons a t ih =>
    intro c hc
    rw [List.dropWhile_cons] at hc
    by_cases hp : p a = true
    · rw [if_pos hp] at hc
      exact List.mem_cons_of_mem a (ih c hc)
    · rw [if_neg hp] at hc
      exact hc

theorem collapse_fix {l : List Char}
    (hg : ∀ c ∈ l, c.isWhitespace = true → c = ' ')
    (hp : noWsPair l = true) : collapseWs l = l := by
  induction l with
  | nil => rfl
  | cons a t ih =>
    cases t with
    | nil =>
      by_cases hw : a.isWhitespace = true
      · rw [collapseWs, if_pos hw, hg a (List.mem_cons_self a []) hw]
      · simp only [Bool.not_eq_true] at hw
        rw [collapseWs]
        simp [hw]
    | cons b t2 =>
      have hab : (a.isWhitespace && b.isWhitespace) = false := by
        rw [noWsPair] at hp
        have h1 := ((Bool.and_eq_true _ _).mp hp).1
        cases hcase : (a.isWhitespace && b.isWhitespace)
        · rfl
        · rw [hcase] at h1
          exact absurd h1 (by decide)
      rw [collapseWs, if_neg (by simp [hab])]
      have htail := ih (fun c hc hw => hg c (List.mem_cons_of_mem a hc) hw)
        (noWsPair_tail hp)
      rw [htail]
      by_cases hw : a.isWhitespace = true
      · rw [if_pos hw, hg a (List.mem_cons_self a (b :: t2)) hw]
      · simp only [Bool.not_eq_true] at hw
        simp [hw]

/-- The list-level pipeline of `normalizeSpaced`. -/
def spacedPipe (l : List Char) : List Char :=
  trimRightWs (trimLeftWs
    (((collapseWs ((l.map Char.toUpper).filter
        (fun c => isPlateChar c || c.isWhitespace))).map substO).map substI))

theorem normalizeSpaced_eq (s : String) :
    normalizeSpaced s = String.mk (spacedPipe s.data) := rfl

theorem spacedPipe_mem (l : List Char) : ∀ c ∈ spacedPipe l, wsGood c = true := by
  intro c hc
  unfold spacedPipe at hc
  have hc1 := dropWhile_mem c (trimRight_mem c hc)
  simp only [List.mem_map] at hc1
  obtain ⟨e, he, rfl⟩ := hc1
  obtain ⟨d, hd, rfl⟩ := he
  have hkeep : ∀ x ∈ (l.map Char.toUpper).filter
      (fun x => isPlateChar x || x.isWhitespace), (isPlateChar x || x.isWhitespace) = true :=
    fun x hx => (List.mem_filter.mp hx).2
  exact wsGood_of_keep (collapse_mem hkeep d hd)

theorem spacedPipe_noWsPair (l : List Char) : noWsPair (spacedPipe l) = true := by
  unfold spacedPipe
  exact trimRight_noWsPair (dropWhile_noWsPair
    (map_noWsPair substI_ws (map_noWsPair substO_ws (collapse_noWsPair _))))

theorem trimLR_fix (m : List Char) :
    trimLeftWs (trimRightWs (trimLeftWs m)) = trimRightWs (trimLeftWs m) := by
  cases hw : trimLeftWs m with
  | nil => rfl
  | cons c r =>
    have hw2 : m.dropWhile Char.isWhitespace = c :: r := hw
    have hc : Char.isWhitespace c = false := dropWhile_head_false hw2
    rcases trimRight_head c r with h2 | ⟨r2, h2⟩
    · rw [h2]; rfl
    · rw [h2]
      show List.dropWhile Char.isWhitespace (c :: r2) = c :: r2
      rw [List.dropWhile_cons, if_neg (by rw [hc]; simp)]

theorem spacedPipe_trimLeft (l : List Char) :
    trimLeftWs (spacedPipe l) = spacedPipe l :=
  trimLR_fix _

theorem spacedPipe_trimRight (l : List Char) :
    trimRightWs (spacedPipe l) = spacedPipe l := by
  unfold spacedPipe
  exact trimRight_idem _

theorem normalizeSpaced_fix (u : String)
    (h1 : ∀ c ∈ u.data, wsGood c = true)
    (h2 : noWsPair u.data = true)
    (h3 : trimLeftWs u.data = u.data)
    (h4 : trimRightWs u.data = u.data) : normalizeSpaced u = u := by
  have e1 : u.data.map Char.toUpper = u.data :=
    map_fix (fun c hc => wsGood_toUpper (h1 c hc))
  have e2 : u.data.filter (fun c => isPlateChar c || c.isWhitespace) = u.data :=
    List.filter_eq_self.mpr (fun c hc => wsGood_keep (h1 c hc))
  have e3 : collapseWs u.data = u.data :=
    collapse_fix (fun c hc hw => wsGood_space (h1 c hc) hw) h2
  have e4 : u.data.map substO = u.data :=
    map_fix (fun c hc => wsGood_substO (h1 c hc))
  have e5 : u.data.map substI = u.data :=
    map_fix (fun c hc => wsGood_substI (h1 c hc))
  unfold normalizeSpaced
  dsimp only
  rw [e1, e2, e3, e4, e5, h3, h4]

theorem normalizeSpaced_idem (s : String) :
    normalizeSpaced (normalizeSpaced s) = normalizeSpaced s := by
  rw [normalizeSpaced_eq s]
  exact normalizeSpaced_fix (String.mk (spacedPipe s.data))
    (spacedPipe_mem s.data) (spacedPipe_noWsPair s.data)
    (spacedPipe_trimLeft s.data) (spacedPipe_trimRight s.data)

theorem map_fix_mem {α : Type} {f : α → α} {l : List α} (h : l.map f = l) :
    ∀ c ∈ l, f c = c := by
  induction l with
  | nil => intro c hc; simp at hc
  | cons a t ih =>
    simp only [List.map_cons, List.cons.injEq] at h
    intro c hc
    rcases List.mem_cons.mp hc with rfl | hc2
    · exact h.1
    · exact ih h.2 c hc2

/-- A session used as a concrete input: streaming, no photos, defaults. -/
def sLive : AppState := ⟨true, "", [], false, false, 0, false, false, "", false⟩

/-- A session used as a concrete input: idle (never streamed). -/
def sIdle : AppState := ⟨false, "", [], false, false, 0, false, false, "", false⟩

/-- A capture environment with all refs bound, taken at `Date.now() = 1000`. -/
def ctxFirst : CaptureCtx := ⟨true, true, true, "u1", 1000⟩

/-- A capture environment for a second frame in the same millisecond. -/
def ctxSecond : CaptureCtx := ⟨true, true, true, "u2", 1000⟩

/-- A photo and a second photo with distinct ids, and a session holding both
with the last one selected. -/
def photoA : Photo := ⟨"1", "d1", 1, none⟩

/-- Second concrete photo. -/
def photoB : Photo := ⟨"2", "d2", 2, none⟩

/-- Session with two photos, the most recent first, index 1 selected. -/
def sTwoPhotos : AppState := ⟨true, "", [photoB, photoA], false, true, 1, true, false, "", false⟩

/-- Claim C1: for the input `HR26AB1234` both plate formatters
(`validateIndianPlate` of `part_000` and `formatIndianPlate` of `App.tsx`)
return the canonical segmented string `HR 26 AB 1234`: the text matches the
2-letters + 2-digits + 1-2-letters + 4-digits pattern and the segments are
joined with a single separating space. -/
theorem c1_format_standard_plate :
    validateIndianPlate "HR26AB1234" = some ("HR 26 AB 1234") ∧
    formatIndianPlate "HR26AB1234" = some ("HR 26 AB 1234") := by
  exact ⟨by decide, by decide⟩

/-- Claim C2 (counterexample): on the legacy-form input `HR261234` neither
`validateIndianPlate` variant returns the claimed `HR 1234` split. -/
theorem c2_legacy_split_counterexample :
    ¬ validateIndianPlate "HR261234" = some ("HR 1234") ∧
    ¬ validateIndianPlateApp "HR261234" = some ("HR 1234") := by
  exact ⟨by decide, by decide⟩

/-- Claim C2 (amended): on `HR261234` the `part_000` formatter matches the
legacy pattern but formats through its length-at-least-8 branch, producing
`HR 26  1234`: state code, district code, an empty series segment (hence two
adjacent spaces) and the serial; the `App.tsx` variant re-segments the same
text to `HR 26 12 34`. -/
theorem c2_legacy_split_actual :
    validateIndianPlate "HR261234" = some ("HR 26  1234") ∧
    validateIndianPlateApp "HR261234" = some ("HR 26 12 34") := by
  exact ⟨by decide, by decide⟩

/-- Claim C3 (counterexample): the OCR text `QQ QQ` normalizes to the
non-empty string `QQ QQ`, which matches no pattern, yet `processImage` in
`App.tsx` reports the error `Could not extract valid plate number. Try
again.` instead of returning the normalized text as a best-effort result. -/
theorem c3_nomatch_error_counterexample :
    normalizeSpaced "QQ QQ" ≠ "" ∧
    formatIndianPlate (normalizeSpaced "QQ QQ") = none ∧
    processImageOutcome "QQ QQ"
      = ScanOutcome.err ("Could not extract valid plate number. Try again.") ∧
    ¬ processImageOutcome "QQ QQ" = ScanOutcome.ok (normalizeSpaced "QQ QQ") := by
  exact ⟨by decide, by decide, by decide, by decide⟩

/-- Claim C3 (amended): when no pattern matches, `scanNumberPlate` in
`part_000` falls back to the trimmed raw OCR text (not the normalized text)
as the best-effort result written to the photo, while `processImage` in
`App.tsx` turns the outcome into an error and keeps nothing. -/
theorem c3_nomatch_fallback_amended :
    (∀ raw : String, jsTrim raw ≠ "" → validateIndianPlate raw = none →
      scanNumberPlateResult raw = ScanOutcome.ok (jsTrim raw)) ∧
    (∀ raw : String, formatIndianPlate (normalizeSpaced raw) = none →
      processImageOutcome raw
        = ScanOutcome.err ("Could not extract valid plate number. Try again.")) := by
  constructor
  · intro raw h1 h2
    unfold scanNumberPlateResult
    rw [if_neg h1, h2]
    rfl
  · intro raw h
    unfold processImageOutcome
    dsimp only
    rw [h]

/-- Witness for the amended C3 at concrete inputs. -/
theorem c3_nomatch_fallback_amended_witness :
    scanNumberPlateResult "QW QW" = ScanOutcome.ok ("QW QW") ∧
    processImageOutcome "WW WW"
      = ScanOutcome.err ("Could not extract valid plate number. Try again.") := by
  constructor
  · exact (c3_nomatch_fallback_amended.1 "QW QW" (by decide) (by decide)).trans (by decide)
  · exact c3_nomatch_fallback_amended.2 "WW WW" (by decide)

/-- Claim C4: for the input `ZZZZZZZZ`, which after normalization matches no
pattern in the ordered pattern lists, both plate formatters return the
`NoMatch` sentinel (`none`), not a formatted string and not an exception. -/
theorem c4_nomatch_sentinel :
    validateIndianPlate "ZZZZZZZZ" = none ∧ formatIndianPlate "ZZZZZZZZ" = none := by
  exact ⟨by decide, by decide⟩

/-- Claim C5: both normalization chains are idempotent: the strict variant
(uppercase, strip outside `[A-Z0-9]`, substitutions O, I, Z, S) and the
whitespace-preserving variant (substitutions O, I) satisfy
`normalize (normalize x) = normalize x` for every string `x`. -/
theorem c5_normalize_idempotent :
    (∀ x : String, normalizeStrict (normalizeStrict x) = normalizeStrict x) ∧
    (∀ x : String, normalizeSpaced (normalizeSpaced x) = normalizeSpaced x) :=
  ⟨normalizeStrict_idem, normalizeSpaced_idem⟩

/-- Claim C6: every character the strict normalization emits lies in
`[A-Z0-9]`, and every character the whitespace-preserving normalization
emits lies in `[A-Z0-9]` or is the space character; normalization never
introduces any character outside that set. -/
theorem c6_normalize_charset :
    (∀ (s : String), ∀ c ∈ (normalizeStrict s).data, isPlateChar c = true) ∧
    (∀ (s : String), ∀ c ∈ (normalizeSpaced s).data,
      isPlateChar c = true ∨ c = ' ') := by
  constructor
  · intro s c hc
    exact strictGood_plate (strictGood_mem s c hc)
  · intro s c hc
    rw [normalizeSpaced_eq] at hc
    have h := spacedPipe_mem s.data c hc
    rcases wsGood_cases h with ⟨hp, _, _⟩ | h2
    · exact Or.inl hp
    · exact Or.inr h2

/-- Witness for C6 at concrete inputs. -/
theorem c6_normalize_charset_witness :
    isPlateChar 'A' = true ∧ (isPlateChar '1' = true ∨ ('1' : Char) = ' ') := by
  constructor
  · exact c6_normalize_charset.1 "a!b" 'A' (by decide)
  · exact c6_normalize_charset.2 "i x" '1' (by decide)

/-- Claim C7: whenever `capturePhoto` is invoked while the session is not
streaming, it fails with the `CaptureUnavailable` outcome: no photo is
appended and no session state changes at all (the state is returned
untouched). -/
theorem c7_capture_not_streaming (ctx : CaptureCtx) (s : AppState)
    (h : s.isStreaming = false) :
    capturePhoto ctx s = (s, CaptureOutcome.captureUnavailable) := by
  unfold capturePhoto
  rw [if_pos (by rw [h]; simp)]

/-- Witness for C7: capturing on an idle session leaves it untouched. -/
theorem c7_capture_not_streaming_witness :
    capturePhoto ctxFirst sIdle = (sIdle, CaptureOutcome.captureUnavailable) :=
  c7_capture_not_streaming ctxFirst sIdle (by rfl)

/-- Claim C8: after every `deletePhoto photoId` the selection cursor is a
valid index into the remaining photo sequence whenever that sequence is
non-empty (in particular when the deleted photo was the cursor target at the
last position); when the sequence has become empty, the gallery and the
fullscreen views — the UI representation of an undefined cursor — are
closed. -/
theorem c8_delete_cursor_valid (photoId : String) (s : AppState) :
    ((deletePhoto photoId s).capturedPhotos ≠ [] →
      (deletePhoto photoId s).selectedPhotoIndex
        < (deletePhoto photoId s).capturedPhotos.length) ∧
    ((deletePhoto photoId s).capturedPhotos = [] →
      (deletePhoto photoId s).showGallery = false ∧
      (deletePhoto photoId s).showFullscreen = false) := by
  unfold deletePhoto
  dsimp only
  by_cases h1 : (List.filter (fun p => !decide (p.id = photoId)) s.capturedPhotos).length
      ≤ s.selectedPhotoIndex ∧
      0 < (List.filter (fun p => !decide (p.id = photoId)) s.capturedPhotos).length
  · rw [if_pos h1]
    dsimp only
    refine ⟨fun _ => ?_, fun he => ?_⟩
    · omega
    · have hlen : (List.filter (fun p => !decide (p.id = photoId)) s.capturedPhotos).length = 0 := by
        rw [he]
        rfl
      omega
  · rw [if_neg h1]
    by_cases h2 : (List.filter (fun p => !decide (p.id = photoId)) s.capturedPhotos).length = 0
    · rw [if_pos h2]
      dsimp only
      refine ⟨fun hne => ?_, fun _ => ⟨rfl, rfl⟩⟩
      exact absurd (List.length_eq_zero.mp h2) hne
    · rw [if_neg h2]
      dsimp only
      refine ⟨fun _ => ?_, fun he => ?_⟩
      · omega
      · rw [he] at h2
        exact absurd rfl h2

/-- Witness for C8: deleting the selected last photo clamps the cursor. -/
theorem c8_delete_cursor_valid_witness :
    (deletePhoto "2" sTwoPhotos).capturedPhotos ≠ [] ∧
    (deletePhoto "2" sTwoPhotos).selectedPhotoIndex
      < (deletePhoto "2" sTwoPhotos).capturedPhotos.length :=
  ⟨by decide, (c8_delete_cursor_valid "2" sTwoPhotos).1 (by decide)⟩

/-- Claim C9 (code bug demonstration): two `capturePhoto` calls during the
same `Date.now()` millisecond assign the same id `"1000"` to two distinct
photos, so photo identifiers are not unique within a session's lifetime
(and `deletePhoto`, which filters by id, would remove both). -/
theorem c9_duplicate_photo_ids :
    (capturePhoto ctxSecond (capturePhoto ctxFirst sLive).1).1.capturedPhotos =
      [⟨"1000", "u2", 1000, none⟩, ⟨"1000", "u1", 1000, none⟩] ∧
    (⟨"1000", "u2", 1000, none⟩ : Photo) ≠ ⟨"1000", "u1", 1000, none⟩ ∧
    Photo.id ⟨"1000", "u2", 1000, none⟩ = Photo.id ⟨"1000", "u1", 1000, none⟩ := by
  exact ⟨by decide, by decide, rfl⟩

/-- Claim C10 (counterexample): `preprocessImageForOCR` does not leave its
input canvas unchanged: on a canvas holding the single gray pixel
`(200, 200, 200, 255)` the buffer content after the call differs from the
content before it (the pixel is thresholded to white). -/
theorem c10_preprocess_mutates_counterexample :
    preprocessImageForOCR [⟨200, 200, 200, 255⟩] ≠ [⟨200, 200, 200, 255⟩] := by
  decide

/-- Claim C10 (amended): `preprocessImage` in `App.tsx` builds its output on
a fresh canvas, but `preprocessImageForOCR` in `part_000` writes the
thresholded grayscale back over the input canvas: whenever the input
contains any pixel that the enhancement changes, the input buffer after the
call differs from its prior content, and no new buffer is returned. -/
theorem c10_preprocess_mutation_amended (canvas : List Pixel) (p : Pixel)
    (hp : p ∈ canvas) (hne : enhancePixel 120 p ≠ p) :
    preprocessImageForOCR canvas ≠ canvas := by
  intro h
  exact hne (map_fix_mem h p hp)

/-- Witness for the amended C10 at a concrete two-pixel canvas. -/
theorem c10_preprocess_mutation_amended_witness :
    preprocessImageForOCR [⟨10, 10, 10, 7⟩, ⟨200, 200, 200, 255⟩]
      ≠ [⟨10, 10, 10, 7⟩, ⟨200, 200, 200, 255⟩] :=
  c10_preprocess_mutation_amended _ ⟨200, 200, 200, 255⟩ (by decide) (by decide)
